import Mathlib

/-!
Verification of the Association Builder of the `stsci_mos_workshop`
repository.

The repository is a notebook (`jwst_pipeline_mos_workshop.ipynb`) whose
association-manifest work consists of calls into the external `jwst`
library (`asn_from_list.asn_from_list`), dictionary mutation of the
resulting structure (`association['asn_type'] = ...`,
`association['products'][0]['members'].append(\x7b\x7d)` followed by
positional field assignment at index 1), and writing the dumped JSON with
`with open(file, 'w')`.  The builder operations themselves (`build`,
`set_asn_type`, `append_member`, `serialize`, `deserialize`, `persist`)
are therefore modelled from the specification, keeping the member key
names (`expname`, `exptype`) and the mutation/write patterns that do
appear in the notebook source.
-/

namespace Asn

/-- A member of a product: a file path and a role tag.  The notebook's
member dictionaries use the keys `expname` (path) and `exptype` (role). -/
structure Member where
  path : String
  role : String
deriving DecidableEq, Repr

/-- A product: a name and an ordered member list. -/
structure Product where
  name : String
  members : List Member
deriving DecidableEq, Repr

/-- Modelled from the spec: a Manifest carries a rule/level tag, a
free-form `asn_type` tag, and an ordered sequence of products. -/
structure Manifest where
  rule : String
  asn_type : String
  products : List Product
deriving DecidableEq, Repr

/-- The error kinds named by the specification's error-handling design. -/
inductive BuilderError where
  | invalidInput
  | indexOutOfRange
  | ioError
  | configurationError
deriving DecidableEq, Repr

/-- The implicit default role given to each member at construction time
(the notebook's `asn_from_list` members default to science exposures). -/
def defaultRole : String := "science"

/-- The initially-default `asn_type` a freshly built manifest carries. -/
def defaultAsnType : String := "None"

/-- Modelled from the spec: `build(members, rule, product_name)` —
missing from src/, which only calls the external
`asn_from_list.asn_from_list`.  Fails with `InvalidInputError` on an
empty member list; otherwise returns a manifest with one product named
`product_name` whose members are the given paths in order, each with the
implicit default role, under the given rule and the default `asn_type`. -/
def build (members : List String) (rule : String) (product_name : String) :
    Except BuilderError Manifest :=
  if members.isEmpty then
    .error .invalidInput
  else
    .ok { rule := rule
          asn_type := defaultAsnType
          products := [{ name := product_name
                         members := members.map fun p =>
                           { path := p, role := defaultRole } }] }

/-- Modelled from the spec: `set_asn_type(manifest, type_tag)` — the
notebook performs it as `association['asn_type'] = tag`.  Sets the
`asn_type` field to the tag, no validation, nothing else changed. -/
def set_asn_type (m : Manifest) (tag : String) : Manifest :=
  { m with asn_type := tag }

/-- Modelled from the spec: `append_member(manifest, product_index, path,
role)` — the notebook performs it as
`association['products'][0]['members'].append(...)` plus positional field
assignment.  Fails with `IndexOutOfRangeError` if the index is not a valid
product index; otherwise appends one member with the given explicit role
at the end of that product's member list. -/
def append_member (m : Manifest) (product_index : Nat)
    (path : String) (role : String) : Except BuilderError Manifest :=
  match m.products.get? product_index with
  | none => .error .indexOutOfRange
  | some P =>
      .ok { m with
            products := m.products.set product_index
              { P with members := P.members ++ [{ path := path, role := role }] } }

/-- The member shape the notebook appends before assigning its fields:
`members.append(\x7b\x7d)` appends an (initially empty) member. -/
def emptyMember : Member := { path := "", role := "" }

/-- The spec's data-model invariant: each product has at least one
member. -/
def Inv (m : Manifest) : Prop :=
  ∀ P ∈ m.products, P.members ≠ []

instance (m : Manifest) : Decidable (Inv m) := by
  unfold Inv
  infer_instance

/-! ### Serialization

Modelled from the spec: `serialize(manifest) → text` and the corresponding
`deserialize(text) → Manifest` are missing from src/, which only calls the
external `dump()` and `json.load`.  The encoding is a canonical JSON text
with the key names the notebook's association files use
(`expname`/`exptype` for members), built and parsed over `List Char`. -/

/-- JSON string escaping of one character (quote and backslash). -/
def escapeChar (c : Char) : List Char :=
  if c = '"' ∨ c = '\\' then ['\\', c] else [c]

/-- JSON string escaping of a character list. -/
def escape : List Char → List Char
  | [] => []
  | c :: cs => escapeChar c ++ escape cs

/-- A JSON string literal: quote, escaped body, quote. -/
def quoteStr (s : String) : List Char :=
  '"' :: (escape s.data ++ ['"'])

def litExpname : List Char :=
  ['\x7b', '"', 'e', 'x', 'p', 'n', 'a', 'm', 'e', '"', ':', ' ']

def litExptype : List Char :=
  [',', ' ', '"', 'e', 'x', 'p', 't', 'y', 'p', 'e', '"', ':', ' ']

def litClose : List Char := ['\x7d']

def litName : List Char :=
  ['\x7b', '"', 'n', 'a', 'm', 'e', '"', ':', ' ']

def litMembers : List Char :=
  [',', ' ', '"', 'm', 'e', 'm', 'b', 'e', 'r', 's', '"', ':', ' ']

def litRule : List Char :=
  ['\x7b', '"', 'r', 'u', 'l', 'e', '"', ':', ' ']

def litAsnType : List Char :=
  [',', ' ', '"', 'a', 's', 'n', '_', 't', 'y', 'p', 'e', '"', ':', ' ']

def litProducts : List Char :=
  [',', ' ', '"', 'p', 'r', 'o', 'd', 'u', 'c', 't', 's', '"', ':', ' ']

def litSep : List Char := [',', ' ']

/-- Canonical text of one member object. -/
def memberChars (m : Member) : List Char :=
  litExpname ++ quoteStr m.path ++ litExptype ++ quoteStr m.role ++ litClose

/-- Comma-separated rendering of a list of items. -/
def sepList (f : α → List Char) : List α → List Char
  | [] => []
  | [a] => f a
  | a :: b :: rest => f a ++ litSep ++ sepList f (b :: rest)

/-- Canonical text of a JSON array of items. -/
def listChars (f : α → List Char) (xs : List α) : List Char :=
  '[' :: (sepList f xs ++ [']'])

/-- Canonical text of one product object. -/
def productChars (p : Product) : List Char :=
  litName ++ quoteStr p.name ++ litMembers ++
    listChars memberChars p.members ++ litClose

/-- Canonical text of a manifest object. -/
def manifestChars (m : Manifest) : List Char :=
  litRule ++ quoteStr m.rule ++ litAsnType ++ quoteStr m.asn_type ++
    litProducts ++ listChars productChars m.products ++ litClose

/-- Modelled from the spec: `serialize(manifest) → text`, a deterministic
canonical JSON encoding with stable field order. -/
def serialize (m : Manifest) : String := String.mk (manifestChars m)

/-- Consume an exact literal prefix. -/
def parseLit : List Char → List Char → Option (List Char)
  | [], input => some input
  | _ :: _, [] => none
  | l :: ls, c :: cs => if c = l then parseLit ls cs else none

/-- Parse the body of a JSON string up to its closing quote, undoing the
escaping. -/
def parseStr : List Char → Option (List Char × List Char)
  | [] => none
  | c :: cs =>
    if c = '"' then some ([], cs)
    else if c = '\\' then
      match cs with
      | [] => none
      | d :: ds =>
        match parseStr ds with
        | none => none
        | some (s, r) => some (d :: s, r)
    else
      match parseStr cs with
      | none => none
      | some (s, r) => some (c :: s, r)

/-- Parse a JSON string literal, opening quote included. -/
def parseQuoted (input : List Char) : Option (List Char × List Char) :=
  match input with
  | '"' :: rest => parseStr rest
  | _ => none

/-- Parse one member object. -/
def parseMember (input : List Char) : Option (Member × List Char) :=
  match parseLit litExpname input with
  | none => none
  | some r1 =>
    match parseQuoted r1 with
    | none => none
    | some (p, r2) =>
      match parseLit litExptype r2 with
      | none => none
      | some r3 =>
        match parseQuoted r3 with
        | none => none
        | some (ro, r4) =>
          match parseLit litClose r4 with
          | none => none
          | some r5 => some ({ path := String.mk p, role := String.mk ro }, r5)

/-- Parse the items of a nonempty JSON array after its opening bracket,
consuming the closing bracket; `fuel` bounds the number of items. -/
def parseListAux (p : List Char → Option (α × List Char)) :
    Nat → List Char → Option (List α × List Char)
  | 0, _ => none
  | fuel + 1, input =>
    match p input with
    | none => none
    | some (a, rest) =>
      if rest.head? = some ']' then some ([a], rest.tail)
      else
        match parseLit litSep rest with
        | none => none
        | some rest2 =>
          match parseListAux p fuel rest2 with
          | none => none
          | some (as, r) => some (a :: as, r)

/-- Parse a JSON array of items. -/
def parseList (p : List Char → Option (α × List Char)) (input : List Char) :
    Option (List α × List Char) :=
  if input.head? = some '[' then
    if input.tail.head? = some ']' then some ([], input.tail.tail)
    else parseListAux p input.tail.length input.tail
  else none

/-- Parse one product object. -/
def parseProduct (input : List Char) : Option (Product × List Char) :=
  match parseLit litName input with
  | none => none
  | some r1 =>
    match parseQuoted r1 with
    | none => none
    | some (n, r2) =>
      match parseLit litMembers r2 with
      | none => none
      | some r3 =>
        match parseList parseMember r3 with
        | none => none
        | some (ms, r4) =>
          match parseLit litClose r4 with
          | none => none
          | some r5 => some ({ name := String.mk n, members := ms }, r5)

/-- Parse a manifest object. -/
def parseManifest (input : List Char) : Option (Manifest × List Char) :=
  match parseLit litRule input with
  | none => none
  | some r1 =>
    match parseQuoted r1 with
    | none => none
    | some (ru, r2) =>
      match parseLit litAsnType r2 with
      | none => none
      | some r3 =>
        match parseQuoted r3 with
        | none => none
        | some (ty, r4) =>
          match parseLit litProducts r4 with
          | none => none
          | some r5 =>
            match parseList parseProduct r5 with
            | none => none
            | some (ps, r6) =>
              match parseLit litClose r6 with
              | none => none
              | some r7 =>
                some ({ rule := String.mk ru, asn_type := String.mk ty,
                        products := ps }, r7)

/-- Modelled from the spec: `deserialize(text) → Manifest`, the loader
corresponding to `serialize`; fails on text that is not a complete
canonical manifest. -/
def deserialize (s : String) : Option Manifest :=
  match parseManifest s.data with
  | some (m, []) => some m
  | _ => none

/-! ### Persistence

The notebook writes the manifest with `with open(dest, 'w') as outfile:
outfile.write(association.dump()[1])`.  We model a small file system
(existing directories, files as a path/content association list, open
handles) and embed that write pattern: open for writing fails when the
destination's parent directory does not exist, otherwise it creates or
truncates the destination; the write either succeeds or fails after a
prefix of the text (`fault` injects the underlying write failure); the
`with` block closes the handle on both exit paths. -/

structure FS where
  dirs : List String
  files : List (String × String)
  handles : List String
deriving DecidableEq, Repr

/-- The directory part of a path: everything before the last slash
(empty — the working directory — when the path has no slash). -/
def dirname (p : String) : String :=
  match p.data.reverse.dropWhile (fun c => c ≠ '/') with
  | [] => ""
  | _ :: rest => String.mk rest.reverse

/-- Create or overwrite a file entry. -/
def setFile (files : List (String × String)) (p c : String) :
    List (String × String) :=
  if files.any fun e => e.1 = p then
    files.map fun e => if e.1 = p then (p, c) else e
  else
    files ++ [(p, c)]

/-- `open(dest, 'w')`: fails when the parent directory does not exist and
then touches nothing; otherwise creates/truncates the destination and
records an open handle. -/
def openW (fs : FS) (dest : String) : Except (BuilderError × FS) FS :=
  if dirname dest ∈ fs.dirs then
    .ok { fs with files := setFile fs.files dest ""
                  handles := dest :: fs.handles }
  else
    .error (.ioError, fs)

/-- `outfile.write(text)`: on success the destination holds the whole
text; a fault after `k` characters leaves the prefix written so far. -/
def writeAll (fs : FS) (dest text : String) (fault : Option Nat) :
    Except (BuilderError × FS) FS :=
  match fault with
  | none => .ok { fs with files := setFile fs.files dest text }
  | some k =>
      .error (.ioError,
        { fs with files := setFile fs.files dest (String.mk (text.data.take k)) })

/-- Leaving the `with` block releases the handle, on both exit paths. -/
def closeW (fs : FS) (dest : String) : FS :=
  { fs with handles := fs.handles.erase dest }

/-- `persist(manifest, destination_path)` as the notebook performs it:
scoped open, write of the serialized text, close on every exit path. -/
def persist (fs : FS) (m : Manifest) (dest : String) (fault : Option Nat) :
    Except (BuilderError × FS) FS :=
  match openW fs dest with
  | .error e => .error e
  | .ok fs1 =>
    match writeAll fs1 dest (serialize m) fault with
    | .ok fs2 => .ok (closeW fs2 dest)
    | .error (e, fs2) => .error (e, closeW fs2 dest)

/-- Look up a file's content. -/
def readFile (fs : FS) (p : String) : Option String :=
  (fs.files.find? fun e => e.1 = p).map Prod.snd

/-- The product `build` constructs: one member per path, default role. -/
def builtProduct (L : List String) (p : String) : Product :=
  { name := p
    members := L.map fun x => { path := x, role := defaultRole } }

/-- The manifest `build` constructs on a non-empty path list. -/
def builtManifest (L : List String) (r p : String) : Manifest :=
  { rule := r
    asn_type := defaultAsnType
    products := [builtProduct L p] }

/-- Concrete scenario inputs used by the witnesses. -/
def mWit : Manifest :=
  { rule := "level2b"
    asn_type := "None"
    products := [{ name := "examp_A"
                   members := [{ path := "examp_A_rate.fits", role := "science" }] }] }

/-- The product `P` with one member of the given path and role appended
at the end. -/
def appendedProduct (P : Product) (path role : String) : Product :=
  { P with members := P.members ++ [{ path := path, role := role }] }

/-- The manifest `M` with product `i` replaced by its appended form. -/
def appendedManifest (M : Manifest) (i : Nat) (P : Product)
    (path role : String) : Manifest :=
  { M with products := M.products.set i (appendedProduct P path role) }

/-- The single product of `mWit`. -/
def mWitProduct : Product :=
  { name := "examp_A"
    members := [{ path := "examp_A_rate.fits", role := "science" }] }

/-- The manifest the spec's example scenario must produce. -/
def mScenario : Manifest :=
  { rule := "level2b"
    asn_type := defaultAsnType
    products := [{ name := "examp_A"
                   members := [{ path := "examp_A_rate.fits", role := defaultRole },
                               { path := "catalog.ecsv", role := "sourcecat" }] }] }

/-- The file-system state of the counterexample before the write. -/
def fs0C4 : FS := { dirs := ["."], files := [], handles := [] }

/-- The file-system state the faulted write leaves behind: the
destination exists and holds only the first character of the text. -/
def fs1C4 : FS :=
  { dirs := ["."], files := [("./out.json", "\x7b")], handles := [] }

end Asn

namespace Asn

theorem build_eq_of_ne_nil (L : List String) (r p : String) (h : L ≠ []) :
    build L r p = Except.ok (builtManifest L r p) := by
  simp [build, builtManifest, builtProduct, h]

theorem build_ok_shape (L : List String) (r p : String) (M : Manifest)
    (h : build L r p = Except.ok M) :
    L ≠ [] ∧ M = builtManifest L r p := by
  by_cases hL : L = []
  · subst hL
    simp [build] at h
  · rw [build_eq_of_ne_nil L r p hL] at h
    exact ⟨hL, (Except.ok.injEq _ _ ▸ h).symm⟩

/-- Claim C1: for every non-empty ordered list of path strings `L`, rule
`r` and product name `p`, `build L r p` returns a manifest with exactly
one product, named `p`, whose member paths are exactly `L` in order, every
member carrying the implicit default science role, under rule `r` and the
initially-default `asn_type`. -/
theorem C1_build_spec (L : List String) (r p : String) (h : L ≠ []) :
    ∃ M, build L r p = Except.ok M ∧
      M.rule = r ∧
      M.asn_type = defaultAsnType ∧
      ∃ P, M.products = [P] ∧ P.name = p ∧
        P.members.map Member.path = L ∧
        ∀ mem ∈ P.members, mem.role = defaultRole := by
  refine ⟨builtManifest L r p, build_eq_of_ne_nil L r p h, rfl, rfl,
    builtProduct L p, rfl, rfl, ?_, ?_⟩
  · simp [builtProduct, Function.comp_def]
  · intro mem hmem
    simp [builtProduct] at hmem
    obtain ⟨x, -, rfl⟩ := hmem
    rfl

/-- Witness for C1 at `L = ["examp_A_rate.fits"]`. -/
theorem C1_build_spec_witness :
    ∃ M, build ["examp_A_rate.fits"] "level2b" "examp_A" = Except.ok M ∧
      M.rule = "level2b" ∧
      M.asn_type = defaultAsnType ∧
      ∃ P, M.products = [P] ∧ P.name = "examp_A" ∧
        P.members.map Member.path = ["examp_A_rate.fits"] ∧
        ∀ mem ∈ P.members, mem.role = defaultRole :=
  C1_build_spec ["examp_A_rate.fits"] "level2b" "examp_A" (by simp)

/-- Claim C6: `build` on the empty member list fails with
`InvalidInputError`, for every rule and product name. -/
theorem C6_build_empty (r p : String) :
    build [] r p = Except.error BuilderError.invalidInput := rfl

/-- Claim C9: `set_asn_type` sets the `asn_type` field to exactly the
given tag — any string tag, no validation — and leaves the rule and the
entire product list (names, members, order, paths, roles) unchanged. -/
theorem C9_set_asn_type (M : Manifest) (tag : String) :
    (set_asn_type M tag).asn_type = tag ∧
    (set_asn_type M tag).rule = M.rule ∧
    (set_asn_type M tag).products = M.products :=
  ⟨rfl, rfl, rfl⟩

/-- Claim C5: `append_member` with an out-of-range product index fails
with `IndexOutOfRangeError`; no updated manifest is produced, so the
manifest is left unmodified. -/
theorem C5_append_out_of_range (M : Manifest) (i : Nat) (path role : String)
    (h : M.products.length ≤ i) :
    append_member M i path role = Except.error BuilderError.indexOutOfRange := by
  simp [append_member, List.getElem?_eq_none h]

/-- Witness for C5 at index 5 of a one-product manifest. -/
theorem C5_append_out_of_range_witness :
    append_member mWit 5 "catalog.ecsv" "sourcecat" =
      Except.error BuilderError.indexOutOfRange :=
  C5_append_out_of_range mWit 5 "catalog.ecsv" "sourcecat" (by decide)

theorem append_member_eq (M : Manifest) (i : Nat) (path role : String)
    (P : Product) (h : M.products[i]? = some P) :
    append_member M i path role = Except.ok (appendedManifest M i P path role) := by
  simp [append_member, appendedManifest, appendedProduct, h]

/-- Claim C2: `append_member` at a valid product index adds exactly one
member at the end of that product's member list, carrying exactly the
given path and explicit role; all other products and all previously
present members keep their positions and contents; and the scenario
`build ["examp_A_rate.fits"] "level2b" "examp_A"` followed by
`append_member _ 0 "catalog.ecsv" "sourcecat"` yields a single product
with exactly two members in order: the science path with the default
role, then the catalog path with role `"sourcecat"`. -/
theorem C2_append_member (M : Manifest) (i : Nat) (path role : String)
    (P : Product) (h : M.products[i]? = some P) :
    (∃ M', append_member M i path role = Except.ok M' ∧
       M'.rule = M.rule ∧ M'.asn_type = M.asn_type ∧
       M'.products[i]? = some (appendedProduct P path role) ∧
       (appendedProduct P path role).name = P.name ∧
       (appendedProduct P path role).members =
         P.members ++ [{ path := path, role := role }] ∧
       ∀ j, j ≠ i → M'.products[j]? = M.products[j]?) ∧
    (build ["examp_A_rate.fits"] "level2b" "examp_A").bind
        (fun m => append_member m 0 "catalog.ecsv" "sourcecat") =
      Except.ok mScenario := by
  constructor
  · obtain ⟨hi, -⟩ := List.getElem?_eq_some_iff.mp h
    refine ⟨_, append_member_eq M i path role P h, rfl, rfl, ?_, rfl, rfl, ?_⟩
    · exact List.getElem?_set_eq_of_lt _ hi
    · intro j hj
      exact List.getElem?_set_ne (Ne.symm hj)
  · rfl

/-- Witness for C2 on a one-product manifest at index 0. -/
theorem C2_append_member_witness :
    (∃ M', append_member mWit 0 "catalog.ecsv" "sourcecat" = Except.ok M' ∧
       M'.rule = mWit.rule ∧ M'.asn_type = mWit.asn_type ∧
       M'.products[0]? =
         some (appendedProduct mWitProduct "catalog.ecsv" "sourcecat") ∧
       (appendedProduct mWitProduct "catalog.ecsv" "sourcecat").name =
         mWitProduct.name ∧
       (appendedProduct mWitProduct "catalog.ecsv" "sourcecat").members =
         mWitProduct.members ++ [{ path := "catalog.ecsv", role := "sourcecat" }] ∧
       ∀ j, j ≠ 0 → M'.products[j]? = mWit.products[j]?) ∧
    (build ["examp_A_rate.fits"] "level2b" "examp_A").bind
        (fun m => append_member m 0 "catalog.ecsv" "sourcecat") =
      Except.ok mScenario :=
  C2_append_member mWit 0 "catalog.ecsv" "sourcecat" mWitProduct rfl

/-- Claim C8: the builder operations preserve the data-model invariants —
every product of a manifest produced by `build` has at least one member,
with member paths exactly the given list in order; `set_asn_type` leaves
the product list untouched; and `append_member` keeps every product
non-empty and extends the targeted member list at the end only, the prior
members remaining an unchanged prefix (no reordering or sorting). -/
theorem C8_invariants :
    (∀ (L : List String) (r p : String) (M : Manifest),
       build L r p = Except.ok M →
       Inv M ∧ ∀ P ∈ M.products, P.members.map Member.path = L) ∧
    (∀ (M : Manifest) (tag : String),
       Inv M → Inv (set_asn_type M tag) ∧ (set_asn_type M tag).products = M.products) ∧
    (∀ (M M' : Manifest) (i : Nat) (path role : String),
       append_member M i path role = Except.ok M' →
       (Inv M → Inv M') ∧
       ∀ (j : Nat) (P : Product), M.products[j]? = some P →
         ∃ Q : Product, M'.products[j]? = some Q ∧
           Q.name = P.name ∧
           (Q.members = P.members ∨
            Q.members = P.members ++ [{ path := path, role := role }]) ∧
           Q.members.take P.members.length = P.members) := by
  refine ⟨?_, ?_, ?_⟩
  · intro L r p M hM
    obtain ⟨hL, rfl⟩ := build_ok_shape L r p M hM
    constructor
    · intro P hP
      simp [builtManifest] at hP
      subst hP
      simpa [builtProduct] using hL
    · intro P hP
      simp [builtManifest] at hP
      subst hP
      simp [builtProduct, Function.comp_def]
  · intro M tag hM
    exact ⟨hM, rfl⟩
  · intro M M' i path role hM
    rcases hP? : M.products[i]? with - | P
    · rw [append_member, List.get?_eq_getElem?, hP?] at hM
      exact absurd hM (by simp)
    · rw [append_member_eq M i path role P hP?] at hM
      obtain rfl : M' = appendedManifest M i P path role :=
        (Except.ok.injEq _ _ ▸ hM).symm
      obtain ⟨hi, -⟩ := List.getElem?_eq_some_iff.mp hP?
      constructor
      · intro hInv Q hQ
        rw [List.mem_iff_getElem?] at hQ
        obtain ⟨j, hj⟩ := hQ
        by_cases hji : j = i
        · subst hji
          rw [show (appendedManifest M j P path role).products =
                M.products.set j (appendedProduct P path role) from rfl,
              List.getElem?_set_eq_of_lt _ hi] at hj
          obtain rfl : Q = appendedProduct P path role :=
            (Option.some.injEq _ _ ▸ hj).symm
          simp [appendedProduct]
        · rw [show (appendedManifest M i P path role).products =
                M.products.set i (appendedProduct P path role) from rfl,
              List.getElem?_set_ne (Ne.symm hji)] at hj
          exact hInv Q (List.mem_iff_getElem?.mpr ⟨j, hj⟩)
      · intro j P' hP'
        by_cases hji : j = i
        · subst hji
          have hPP : P = P' := by
            rw [hP?] at hP'
            exact Option.some.injEq _ _ ▸ hP'
          subst hPP
          refine ⟨appendedProduct P path role,
            List.getElem?_set_eq_of_lt _ hi, rfl, Or.inr rfl, ?_⟩
          simp [appendedProduct, List.take_left]
        · refine ⟨P', ?_, rfl, Or.inl rfl, by simp⟩
          rw [show (appendedManifest M i P path role).products =
                M.products.set i (appendedProduct P path role) from rfl,
              List.getElem?_set_ne (Ne.symm hji)]
          exact hP'

/-- Witness for C8: each conjunct applied at a concrete input. -/
theorem C8_invariants_witness :
    (Inv mWit ∧
      ∀ P ∈ mWit.products, P.members.map Member.path = ["examp_A_rate.fits"]) ∧
    (Inv (set_asn_type mWit "None") ∧
      (set_asn_type mWit "None").products = mWit.products) ∧
    ((Inv mWit → Inv (appendedManifest mWit 0 mWitProduct "catalog.ecsv" "sourcecat")) ∧
     ∀ (j : Nat) (P : Product), mWit.products[j]? = some P →
       ∃ Q : Product,
         (appendedManifest mWit 0 mWitProduct "catalog.ecsv" "sourcecat").products[j]? =
           some Q ∧
         Q.name = P.name ∧
         (Q.members = P.members ∨
          Q.members = P.members ++ [{ path := "catalog.ecsv", role := "sourcecat" }]) ∧
         Q.members.take P.members.length = P.members) :=
  ⟨C8_invariants.1 ["examp_A_rate.fits"] "level2b" "examp_A" mWit rfl,
   C8_invariants.2.1 mWit "None" (by decide),
   C8_invariants.2.2 mWit (appendedManifest mWit 0 mWitProduct "catalog.ecsv" "sourcecat")
     0 "catalog.ecsv" "sourcecat"
     (append_member_eq mWit 0 "catalog.ecsv" "sourcecat" mWitProduct rfl)⟩

/-- Claim C10: for a manifest built from a non-empty member list, after
appending one (initially empty) member to the first product's member
list, index 1 of that list is in bounds — the list has length at least
two — so the positional field assignments at index 1 are never out of
range. -/
theorem C10_index_one_safe (L : List String) (r p : String) (M : Manifest)
    (hb : build L r p = Except.ok M) (P : Product) (hP : M.products[0]? = some P) :
    2 ≤ (P.members ++ [emptyMember]).length ∧
    ((P.members ++ [emptyMember])[1]?).isSome := by
  obtain ⟨hL, rfl⟩ := build_ok_shape L r p M hb
  obtain rfl : P = builtProduct L p := by
    simpa [builtManifest] using hP.symm
  have hlen : 1 ≤ L.length := by
    cases L with
    | nil => exact absurd rfl hL
    | cons a t => simp
  have h2 : 2 ≤ ((builtProduct L p).members ++ [emptyMember]).length := by
    simp [builtProduct]
    omega
  refine ⟨h2, ?_⟩
  rw [List.getElem?_eq_getElem (by omega)]
  simp

/-- Witness for C10 on the one-element build. -/
theorem C10_index_one_safe_witness :
    2 ≤ (mWitProduct.members ++ [emptyMember]).length ∧
    ((mWitProduct.members ++ [emptyMember])[1]?).isSome :=
  C10_index_one_safe ["examp_A_rate.fits"] "level2b" "examp_A" mWit rfl
    mWitProduct rfl

/-- Claim C7: serialization is deterministic with stable field order —
its output is a function of the manifest's field values alone, so calling
`serialize` twice on an unmodified manifest yields byte-identical text. -/
theorem C7_serialize_deterministic (M M' : Manifest)
    (h1 : M.rule = M'.rule) (h2 : M.asn_type = M'.asn_type)
    (h3 : M.products = M'.products) :
    serialize M = serialize M' ∧
    (serialize M).data = (serialize M').data := by
  obtain ⟨r, t, ps⟩ := M
  obtain ⟨r', t', ps'⟩ := M'
  cases h1
  cases h2
  cases h3
  exact ⟨rfl, rfl⟩

/-- Witness for C7 at a concrete manifest. -/
theorem C7_serialize_deterministic_witness :
    serialize mWit = serialize mWit ∧
    (serialize mWit).data = (serialize mWit).data :=
  C7_serialize_deterministic mWit mWit rfl rfl rfl

theorem parseLit_append (l r : List Char) : parseLit l (l ++ r) = some r := by
  induction l with
  | nil => rfl
  | cons c cs ih => simp [parseLit, ih]

theorem parseStr_cons (c : Char) (cs : List Char) :
    parseStr (c :: cs) =
      if c = '"' then some ([], cs)
      else if c = '\\' then
        match cs with
        | [] => none
        | d :: ds =>
          match parseStr ds with
          | none => none
          | some (s, r) => some (d :: s, r)
      else
        match parseStr cs with
        | none => none
        | some (s, r) => some (c :: s, r) := by
  rw [parseStr.eq_def]

theorem parseStr_quote (r : List Char) : parseStr ('"' :: r) = some ([], r) := by
  rw [parseStr_cons, if_pos rfl]

theorem parseStr_escaped (c : Char) (rest : List Char) :
    parseStr ('\\' :: c :: rest) =
      match parseStr rest with
      | none => none
      | some (s, r) => some (c :: s, r) := by
  rw [parseStr_cons, if_neg (by decide), if_pos rfl]

theorem parseStr_plain (c : Char) (h1 : c ≠ '"') (h2 : c ≠ '\\') (cs : List Char) :
    parseStr (c :: cs) =
      match parseStr cs with
      | none => none
      | some (s, r) => some (c :: s, r) := by
  rw [parseStr_cons, if_neg h1, if_neg h2]

theorem parseStr_escape (s : List Char) : ∀ r : List Char,
    parseStr (escape s ++ ('"' :: r)) = some (s, r) := by
  induction s with
  | nil =>
    intro r
    rw [show escape [] ++ ('"' :: r) = '"' :: r from rfl, parseStr_quote]
  | cons c cs ih =>
    intro r
    by_cases hc : c = '"' ∨ c = '\\'
    · rw [show escape (c :: cs) ++ ('"' :: r) =
          '\\' :: c :: (escape cs ++ ('"' :: r)) by
            simp [escape, escapeChar, if_pos hc]]
      rw [parseStr_escaped, ih r]
    · push_neg at hc
      rw [show escape (c :: cs) ++ ('"' :: r) =
          c :: (escape cs ++ ('"' :: r)) by
            simp [escape, escapeChar, hc.1, hc.2]]
      rw [parseStr_plain c hc.1 hc.2, ih r]

theorem parseQuoted_quote (s : String) (r : List Char) :
    parseQuoted (quoteStr s ++ r) = some (s.data, r) := by
  have h : quoteStr s ++ r = '"' :: (escape s.data ++ ('"' :: r)) := by
    simp [quoteStr]
  rw [h, parseQuoted, parseStr_escape]

theorem parseMember_roundtrip (m : Member) (r : List Char) :
    parseMember (memberChars m ++ r) = some (m, r) := by
  simp only [memberChars, List.append_assoc]
  rw [parseMember, parseLit_append]
  simp only [parseQuoted_quote, parseLit_append]

theorem length_sepList_ge (f : α → List Char) (hf : ∀ a, f a ≠ []) :
    ∀ xs : List α, xs.length ≤ (sepList f xs).length := by
  intro xs
  induction xs with
  | nil => simp [sepList]
  | cons a rest ih =>
    cases rest with
    | nil =>
      have h := List.length_pos.mpr (hf a)
      simpa [sepList] using h
    | cons b rest2 =>
      have h := List.length_pos.mpr (hf a)
      simp only [sepList, List.length_append, List.length_cons, litSep] at ih ⊢
      simp at ih ⊢
      omega

theorem parseListAux_succ (p : List Char → Option (α × List Char)) (fuel : Nat)
    (input : List Char) :
    parseListAux p (fuel + 1) input =
      match p input with
      | none => none
      | some (a, rest) =>
        if rest.head? = some ']' then some ([a], rest.tail)
        else
          match parseLit litSep rest with
          | none => none
          | some rest2 =>
            match parseListAux p fuel rest2 with
            | none => none
            | some (as, r) => some (a :: as, r) := by
  rw [parseListAux]

theorem parseListAux_roundtrip (p : List Char → Option (α × List Char))
    (f : α → List Char) (hp : ∀ a r, p (f a ++ r) = some (a, r)) :
    ∀ (xs : List α) (fuel : Nat) (r : List Char), xs ≠ [] → xs.length ≤ fuel →
      parseListAux p fuel (sepList f xs ++ (']' :: r)) = some (xs, r) := by
  intro xs
  induction xs with
  | nil =>
    intro fuel r h _
    exact absurd rfl h
  | cons a rest ih =>
    intro fuel r _ hfuel
    cases fuel with
    | zero => simp at hfuel
    | succ fuel2 =>
      cases rest with
      | nil =>
        rw [show sepList f [a] ++ (']' :: r) = f a ++ (']' :: r) from rfl]
        rw [parseListAux_succ, hp]
        simp
      | cons b rest2 =>
        have hih : parseListAux p fuel2 (sepList f (b :: rest2) ++ (']' :: r)) =
            some (b :: rest2, r) := by
          refine ih fuel2 r (by simp) ?_
          simp only [List.length_cons] at hfuel ⊢
          omega
        rw [show sepList f (a :: b :: rest2) ++ (']' :: r) =
            f a ++ (litSep ++ (sepList f (b :: rest2) ++ (']' :: r))) by
              simp [sepList]]
        rw [parseListAux_succ, hp]
        simp only [litSep, List.cons_append, List.nil_append, List.head?_cons]
        rw [if_neg (by decide)]
        rw [show parseLit [',', ' '] (',' :: ' ' ::
              (sepList f (b :: rest2) ++ (']' :: r))) =
            some (sepList f (b :: rest2) ++ (']' :: r)) from
          parseLit_append [',', ' '] _]
        simp only [hih]

theorem sepList_cons_head (f : α → List Char) (a : α) (rest : List α) :
    ∃ t, sepList f (a :: rest) = f a ++ t := by
  cases rest with
  | nil => exact ⟨[], by simp [sepList]⟩
  | cons b r2 => exact ⟨litSep ++ sepList f (b :: r2), by simp [sepList]⟩

theorem parseList_roundtrip (p : List Char → Option (α × List Char))
    (f : α → List Char) (hp : ∀ a r, p (f a ++ r) = some (a, r))
    (hhead : ∀ a, ∃ c cs, f a = c :: cs ∧ c ≠ ']') (xs : List α) (r : List Char) :
    parseList p (listChars f xs ++ r) = some (xs, r) := by
  have hinput : listChars f xs ++ r = '[' :: (sepList f xs ++ (']' :: r)) := by
    simp [listChars]
  rw [hinput, parseList]
  cases xs with
  | nil =>
    rw [if_pos (by simp)]
    rw [show (('[' :: (sepList f ([] : List α) ++ (']' :: r))).tail) =
        ']' :: r from rfl]
    simp
  | cons a rest =>
    rw [if_pos (by simp)]
    obtain ⟨c, cs, hfa, hc⟩ := hhead a
    obtain ⟨t, ht⟩ := sepList_cons_head f a rest
    have htail : ('[' :: (sepList f (a :: rest) ++ (']' :: r))).tail =
        sepList f (a :: rest) ++ (']' :: r) := rfl
    rw [htail]
    have hhd : (sepList f (a :: rest) ++ (']' :: r)).head? = some c := by
      rw [ht, hfa]
      simp
    rw [if_neg (by rw [hhd]; simp [hc])]
    refine parseListAux_roundtrip p f hp (a :: rest) _ r (by simp) ?_
    have h1 : (a :: rest).length ≤ (sepList f (a :: rest)).length := by
      refine length_sepList_ge f ?_ (a :: rest)
      intro x
      obtain ⟨c', cs', hfx, -⟩ := hhead x
      rw [hfx]
      simp
    simp only [List.length_append, List.length_cons] at h1 ⊢
    omega

theorem parseList_members (ms : List Member) (r : List Char) :
    parseList parseMember (listChars memberChars ms ++ r) = some (ms, r) := by
  refine parseList_roundtrip parseMember memberChars parseMember_roundtrip ?_ ms r
  intro m
  exact ⟨'\x7b', _, rfl, by decide⟩

theorem parseProduct_roundtrip (P : Product) (r : List Char) :
    parseProduct (productChars P ++ r) = some (P, r) := by
  simp only [productChars, List.append_assoc]
  rw [parseProduct, parseLit_append]
  simp only [parseQuoted_quote, parseLit_append, parseList_members]

theorem parseList_products (ps : List Product) (r : List Char) :
    parseList parseProduct (listChars productChars ps ++ r) = some (ps, r) := by
  refine parseList_roundtrip parseProduct productChars parseProduct_roundtrip ?_ ps r
  intro P
  exact ⟨'\x7b', _, rfl, by decide⟩

theorem parseManifest_roundtrip (M : Manifest) (r : List Char) :
    parseManifest (manifestChars M ++ r) = some (M, r) := by
  simp only [manifestChars, List.append_assoc]
  rw [parseManifest, parseLit_append]
  simp only [parseQuoted_quote, parseLit_append, parseList_products]

/-- Claim C3: for every valid manifest, deserializing its serialization
yields a manifest equal to the original in all fields — rule, `asn_type`,
product names, member paths, member roles, and member order. -/
theorem C3_roundtrip (M : Manifest) (_hv : Inv M) :
    deserialize (serialize M) = some M := by
  have h := parseManifest_roundtrip M []
  rw [List.append_nil] at h
  have h2 : (serialize M).data = manifestChars M := rfl
  simp [deserialize, h2, h]

/-- Witness for C3 at a concrete valid manifest. -/
theorem C3_roundtrip_witness : deserialize (serialize mWit) = some mWit :=
  C3_roundtrip mWit (by decide)

theorem find?_map_set (files : List (String × String)) (p c : String)
    (h : files.any (fun e => e.1 = p) = true) :
    (files.map fun e => if e.1 = p then (p, c) else e).find?
      (fun e => e.1 = p) = some (p, c) := by
  induction files with
  | nil => simp at h
  | cons e rest ih =>
    by_cases he : e.1 = p
    · simp [List.find?_cons, he]
    · simp only [List.map_cons, if_neg he]
      rw [List.find?_cons_of_neg _ (by simp [he])]
      refine ih ?_
      simpa [List.any_cons, he] using h

theorem find?_append_new (files : List (String × String)) (p c : String)
    (h : files.any (fun e => e.1 = p) = false) :
    (files ++ [(p, c)]).find? (fun e => e.1 = p) = some (p, c) := by
  induction files with
  | nil => simp [List.find?]
  | cons e rest ih =>
    simp only [List.any_cons, Bool.or_eq_false_iff] at h
    rw [List.cons_append, List.find?_cons_of_neg _ (by simpa using h.1)]
    exact ih h.2

theorem readFile_setFile (files : List (String × String)) (p c : String) :
    (setFile files p c).find? (fun e => e.1 = p) = some (p, c) := by
  rw [setFile]
  by_cases h : files.any (fun e => e.1 = p) = true
  · rw [if_pos h]
    exact find?_map_set files p c h
  · rw [if_neg h]
    exact find?_append_new files p c (by rwa [Bool.not_eq_true] at h)

theorem persist_ok_none (fs : FS) (m : Manifest) (dest : String)
    (hdir : dirname dest ∈ fs.dirs) :
    persist fs m dest none = Except.ok
      { dirs := fs.dirs
        files := setFile (setFile fs.files dest "") dest (serialize m)
        handles := ((dest :: fs.handles).erase dest) } := by
  simp [persist, openW, hdir, writeAll, closeW]

theorem persist_fault (fs : FS) (m : Manifest) (dest : String) (k : Nat)
    (hdir : dirname dest ∈ fs.dirs) :
    persist fs m dest (some k) = Except.error (BuilderError.ioError,
      { dirs := fs.dirs
        files := setFile (setFile fs.files dest "") dest
          (String.mk ((serialize m).data.take k))
        handles := ((dest :: fs.handles).erase dest) }) := by
  simp [persist, openW, hdir, writeAll, closeW]

theorem persist_nodir (fs : FS) (m : Manifest) (dest : String)
    (fault : Option Nat) (hdir : dirname dest ∉ fs.dirs) :
    persist fs m dest fault = Except.error (BuilderError.ioError, fs) := by
  simp [persist, openW, hdir]

/-- Claim C4 is false on the code: the notebook writes with
`with open(dest, 'w')` directly at the destination, not by
write-then-rename, so a write failure part-way leaves a partially-written
file observable at the destination path.  Concretely, persisting `mWit`
to `./out.json` with a fault after one character fails with `IOError`
but leaves `./out.json` holding a one-character strict prefix of the
serialized text, where no file existed before. -/
theorem C4_counterexample :
    persist fs0C4 mWit "./out.json" (some 1) =
      Except.error (BuilderError.ioError, fs1C4) ∧
    readFile fs0C4 "./out.json" = none ∧
    readFile fs1C4 "./out.json" = some "\x7b" ∧
    "\x7b" ≠ serialize mWit := by
  refine ⟨?_, rfl, rfl, ?_⟩
  · rfl
  · decide

/-- Claim C4 amended: `persist` acquires the destination handle scoped
with release on every exit path, surfaces any underlying write failure as
`IOError`, fails with `IOError` leaving the file system untouched when
the destination's parent directory does not exist, and on success leaves
the whole serialized text at the destination; but a write failure
part-way can leave a partially-written file at the destination (the
write is direct, not write-then-rename). -/
theorem C4_persist_amended (fs : FS) (m : Manifest) (dest : String)
    (fault : Option Nat) (hh : dest ∉ fs.handles) :
    (∀ fs', persist fs m dest fault = Except.ok fs' → dest ∉ fs'.handles) ∧
    (∀ e fs', persist fs m dest fault = Except.error (e, fs') →
       dest ∉ fs'.handles) ∧
    (dirname dest ∈ fs.dirs → ∀ k, fault = some k →
       ∃ fs', persist fs m dest fault =
         Except.error (BuilderError.ioError, fs')) ∧
    (dirname dest ∉ fs.dirs →
       persist fs m dest fault = Except.error (BuilderError.ioError, fs)) ∧
    (dirname dest ∈ fs.dirs → fault = none →
       ∃ fs', persist fs m dest fault = Except.ok fs' ∧
         readFile fs' dest = some (serialize m)) := by
  have herase : (dest :: fs.handles).erase dest = fs.handles :=
    List.erase_cons_head dest fs.handles
  by_cases hdir : dirname dest ∈ fs.dirs
  · cases fault with
    | none =>
      have hper := persist_ok_none fs m dest hdir
      refine ⟨?_, ?_, ?_, fun h => absurd hdir h, ?_⟩
      · intro fs' h
        rw [hper] at h
        obtain rfl : _ = fs' := Except.ok.injEq _ _ ▸ h
        rw [show ({ dirs := fs.dirs
                    files := setFile (setFile fs.files dest "") dest (serialize m)
                    handles := ((dest :: fs.handles).erase dest) } : FS).handles =
            (dest :: fs.handles).erase dest from rfl, herase]
        exact hh
      · intro e fs' h
        rw [hper] at h
        exact absurd h (by simp)
      · intro _ k hk
        exact absurd hk (by simp)
      · intro _ _
        refine ⟨_, hper, ?_⟩
        rw [readFile]
        rw [show ({ dirs := fs.dirs
                    files := setFile (setFile fs.files dest "") dest (serialize m)
                    handles := ((dest :: fs.handles).erase dest) } : FS).files =
            setFile (setFile fs.files dest "") dest (serialize m) from rfl]
        rw [readFile_setFile]
        rfl
    | some k =>
      have hper := persist_fault fs m dest k hdir
      refine ⟨?_, ?_, ?_, fun h => absurd hdir h, ?_⟩
      · intro fs' h
        rw [hper] at h
        exact absurd h (by simp)
      · intro e fs' h
        rw [hper] at h
        have h2 := Except.error.injEq _ _ ▸ h
        obtain rfl : _ = fs' := congrArg Prod.snd h2
        rw [show ({ dirs := fs.dirs
                    files := setFile (setFile fs.files dest "") dest
                      (String.mk ((serialize m).data.take k))
                    handles := ((dest :: fs.handles).erase dest) } : FS).handles =
            (dest :: fs.handles).erase dest from rfl, herase]
        exact hh
      · intro _ k2 _
        exact ⟨_, hper⟩
      · intro _ hk
        exact absurd hk (by simp)
  · have hper := persist_nodir fs m dest fault hdir
    refine ⟨?_, ?_, fun h _ _ => absurd h hdir, fun _ => hper, fun h _ => absurd h hdir⟩
    · intro fs' h
      rw [hper] at h
      exact absurd h (by simp)
    · intro e fs' h
      rw [hper] at h
      have h2 := Except.error.injEq _ _ ▸ h
      obtain rfl : fs = fs' := congrArg Prod.snd h2
      exact hh

/-- Witness for the amended C4 at the counterexample's concrete input. -/
theorem C4_persist_amended_witness :
    (∀ fs', persist fs0C4 mWit "./out.json" (some 1) = Except.ok fs' →
       "./out.json" ∉ fs'.handles) ∧
    (∀ e fs', persist fs0C4 mWit "./out.json" (some 1) = Except.error (e, fs') →
       "./out.json" ∉ fs'.handles) ∧
    (dirname "./out.json" ∈ fs0C4.dirs → ∀ k, (some 1 : Option Nat) = some k →
       ∃ fs', persist fs0C4 mWit "./out.json" (some 1) =
         Except.error (BuilderError.ioError, fs')) ∧
    (dirname "./out.json" ∉ fs0C4.dirs →
       persist fs0C4 mWit "./out.json" (some 1) =
         Except.error (BuilderError.ioError, fs0C4)) ∧
    (dirname "./out.json" ∈ fs0C4.dirs → (some 1 : Option Nat) = none →
       ∃ fs', persist fs0C4 mWit "./out.json" (some 1) = Except.ok fs' ∧
         readFile fs' "./out.json" = some (serialize mWit)) :=
  C4_persist_amended fs0C4 mWit "./out.json" (some 1) (by decide)

end Asn
